import Mathlib

/-!
Verification development for the AI news parsing agent
(`parser_agent.py`).  The definitions below are a shallow embedding of
the program's pure core: the sentence splitter, tokenizer, extractive
summarizer, the collector's accept/sort/truncate logic, the article
serializer, and the CLI argument parsing.  Machine floats of the source
are modelled by exact rationals; Python's stable `sorted` is modelled by
a stable insertion sort; `str` values are Lean `String`s (Python `len`
counts code points, as does `String.length`).
-/

namespace ParserAgent

/-- Python whitespace class (the regex `\s` and `str.strip` on ASCII
input): space, tab, newline, carriage return, vertical tab, form feed. -/
def isPySpace (c : Char) : Bool :=
  c == ' ' || c == '\t' || c == '\n' || c == '\r' || c == '\x0b' || c == '\x0c'

/-- Sentence-terminal punctuation of the splitter regex: `.`, `!`, `?`. -/
def isSentTerm (c : Char) : Bool :=
  c == '.' || c == '!' || c == '?'

/-- The character class `[A-ZА-Я0-9]` that must follow a sentence boundary
in `_split_into_sentences` (uppercase Latin, uppercase Cyrillic А-Я, digit). -/
def isUpperStart (c : Char) : Bool :=
  (decide ('A' ≤ c ∧ c ≤ 'Z')) || (decide ('А' ≤ c ∧ c ≤ 'Я')) ||
    (decide ('0' ≤ c ∧ c ≤ '9'))

/-- Python `str.strip()` on a character list: drop leading and trailing
whitespace. -/
def pyStrip (l : List Char) : List Char :=
  ((l.dropWhile isPySpace).reverse.dropWhile isPySpace).reverse

/-- One pass of `re.sub(r"\s+", " ", ·)`: every maximal run of whitespace
characters becomes a single space. -/
def collapseWs : List Char → List Char
  | [] => []
  | [c] => if isPySpace c then [' '] else [c]
  | c :: d :: cs =>
    if isPySpace c && isPySpace d then collapseWs (d :: cs)
    else (if isPySpace c then ' ' else c) :: collapseWs (d :: cs)

/-- The whole cleaning step of `_split_into_sentences`:
`re.sub(r"\s+", " ", text.strip())`. -/
def cleanText (l : List Char) : List Char :=
  collapseWs (pyStrip l)

/-- Splitting on the regex `(?<=[.!?])\s+(?=[A-ZА-Я0-9])` over cleaned
text (whitespace runs are already single spaces, so the separator is one
space preceded by terminal punctuation and followed by an upper-start
character).  `acc` holds the current sentence reversed. -/
def splitCore : List Char → List Char → List (List Char)
  | [], acc => [acc.reverse]
  | [c], acc => [(c :: acc).reverse]
  | [c, b], acc => splitCore [b] (c :: acc)
  | c :: b :: d :: cs3, acc =>
    if isSentTerm c && b == ' ' && isUpperStart d then
      (c :: acc).reverse :: splitCore (d :: cs3) []
    else splitCore (b :: d :: cs3) (c :: acc)

/-- The splitter `_split_into_sentences`: clean the text, return `[]` when the cleaned
text is empty, otherwise split at heuristic boundaries, strip each piece
and drop empty pieces. -/
def split_into_sentences (text : String) : List String :=
  let cleaned := cleanText text.data
  if cleaned.isEmpty then []
  else ((splitCore cleaned []).map (fun s => String.mk (pyStrip s))).filter
    (fun s => s ≠ "")

/-- Python `str.lower()` restricted to the alphabets the tokenizer can
see: uppercase Latin and uppercase Cyrillic (А-Я and Ё) are lowered,
everything else is unchanged. -/
def pyLower (c : Char) : Char :=
  if decide ('A' ≤ c ∧ c ≤ 'Z') then Char.ofNat (c.toNat + 32)
  else if decide ('А' ≤ c ∧ c ≤ 'Я') then Char.ofNat (c.toNat + 32)
  else if c == 'Ё' then 'ё'
  else c

/-- The token character class `[a-zA-Zа-яА-Я0-9']` of `_tokenize`. -/
def isTokenChar (c : Char) : Bool :=
  (decide ('a' ≤ c ∧ c ≤ 'z')) || (decide ('A' ≤ c ∧ c ≤ 'Z')) ||
    (decide ('0' ≤ c ∧ c ≤ '9')) || (decide ('а' ≤ c ∧ c ≤ 'я')) ||
    (decide ('А' ≤ c ∧ c ≤ 'Я')) || c == '\''

/-- Maximal runs of token characters (the effect of `re.findall` with the
token class).  `acc` holds the current token reversed. -/
def tokenRuns : List Char → List Char → List String
  | [], acc => if acc.isEmpty then [] else [String.mk acc.reverse]
  | c :: cs, acc =>
    if isTokenChar c then tokenRuns cs (c :: acc)
    else if acc.isEmpty then tokenRuns cs []
    else String.mk acc.reverse :: tokenRuns cs []

/-- The tokenizer `_tokenize`: lowercase the sentence, then collect maximal runs of
token characters. -/
def tokenize (sentence : String) : List String :=
  tokenRuns (sentence.data.map pyLower) []

/-- The fixed stop-word set `STOP_WORDS` of the source, verbatim. -/
def STOP_WORDS : List String :=
  ["a", "about", "after", "again", "against", "all", "am", "an", "and",
   "any", "are", "as", "at", "be", "because", "been", "before", "being",
   "below", "between", "both", "but", "by", "can", "could", "did", "do",
   "does", "doing", "down", "during", "each", "few", "for", "from",
   "further", "had", "has", "have", "having", "he", "her", "here", "hers",
   "herself", "him", "himself", "his", "how", "i", "if", "in", "into",
   "is", "it", "its", "itself", "just", "me", "more", "most", "my",
   "myself", "no", "nor", "not", "now", "of", "off", "on", "once", "only",
   "or", "other", "our", "ours", "ourselves", "out", "over", "own",
   "same", "she", "should", "so", "some", "such", "than", "that", "the",
   "their", "theirs", "them", "themselves", "then", "there", "these",
   "they", "this", "those", "through", "to", "too", "under", "until",
   "up", "very", "was", "we", "were", "what", "when", "where", "which",
   "while", "who", "whom", "why", "will", "with", "you", "your", "yours",
   "yourself", "yourselves"]

/-- Membership in the stop-word set. -/
def isStopWord (w : String) : Bool :=
  STOP_WORDS.contains w

/-- All non-stop-word tokens of the sentence list, in order: the stream
`word_freq` is built from (`word_freq.update(token for token in tokens if
token not in STOP_WORDS)` over every sentence). -/
def nonStopTokens (sentences : List String) : List String :=
  ((sentences.map tokenize).flatten).filter (fun t => !isStopWord t)

/-- Raw frequency of a word: its count in the `word_freq` counter (zero
when absent; stop words are never inserted, so their count is zero). -/
def wordCount (sentences : List String) (w : String) : Nat :=
  (nonStopTokens sentences).count w

/-- Maximum raw frequency, `max(word_freq.values())`. -/
def maxFreq (sentences : List String) : Nat :=
  (((nonStopTokens sentences).dedup).map (wordCount sentences)).foldr max 0

/-- Normalized weight of a word after `word_freq[word] /= max_freq`,
looked up with default zero (`word_freq.get(token, 0.0)`): the source's
floats are modelled by exact rationals. -/
def weight (sentences : List String) (w : String) : ℚ :=
  (wordCount sentences w : ℚ) / (maxFreq sentences : ℚ)

/-- Score of one sentence: the sum of the looked-up weights of all its
tokens (stop words and absent words contribute zero). -/
def sentence_score (sentences : List String) (s : String) : ℚ :=
  ((tokenize s).map (weight sentences)).sum

/-- The `sentence_scores` list: one `(score, sentence)` pair per sentence
in order, skipping sentences whose token list is empty (`if not tokens:
continue`). -/
def sentence_scores (sentences : List String) : List (ℚ × String) :=
  (sentences.filter (fun s => !(tokenize s).isEmpty)).map
    (fun s => (sentence_score sentences s, s))

/-- Stable insertion of `a` into `l`: `a` goes before the first element
`b` with `r a b`. -/
def insertByR (r : α → α → Bool) (a : α) : List α → List α
  | [] => [a]
  | b :: l =>
    match r a b with
    | true => a :: b :: l
    | false => b :: insertByR r a l

/-- Stable insertion sort, modelling Python's stable `sorted`: with a
total reflexive `r`, elements that compare equal keep their original
relative order (an earlier element is inserted into the already-sorted
later elements and `r` holds against an equal element, placing it in
front). -/
def sortByR (r : α → α → Bool) : List α → List α
  | [] => []
  | a :: l => insertByR r a (sortByR r l)

/-- Comparison used for `sorted(sentence_scores, key=item[0],
reverse=True)`: descending by score, stable. -/
def scoreDescR (x y : ℚ × String) : Bool :=
  decide (y.1 ≤ x.1)

/-- First index of a sentence in the split, Python's `sentences.index(s)`
(the length when absent; in the program the sentence is always present). -/
def sentIndex (sentences : List String) (s : String) : Nat :=
  sentences.indexOf s

/-- Comparison used for `sorted(top_sentences, key=sentences.index)`:
ascending by first index, stable. -/
def idxAscR (sentences : List String) (s t : String) : Bool :=
  decide (sentIndex sentences s ≤ sentIndex sentences t)

/-- The list of sentences whose join `summarize_text` returns: the
identity branch, the empty-frequency-table branch, or the scoring branch
(select the top `max_sentences` by descending score, then restore first
occurrence order). -/
def summaryList (text : String) (max_sentences : Nat) : List String :=
  let sentences := split_into_sentences text
  if sentences.length ≤ max_sentences then sentences
  else if (nonStopTokens sentences).isEmpty then sentences.take max_sentences
  else
    let top := ((sortByR scoreDescR (sentence_scores sentences)).take
      max_sentences).map Prod.snd
    sortByR (idxAscR sentences) top

/-- The summarizer `summarize_text`: every branch of the source returns a join with
single spaces of the corresponding sentence list. -/
def summarize_text (text : String) (max_sentences : Nat) : String :=
  String.intercalate " " (summaryList text max_sentences)

/-- Integer numerator of a sentence score: all normalized weights share
the denominator `maxFreq`, so a score is `scoreNum / maxFreq`.  This is
the executable companion of `sentence_score`. -/
def scoreNum (sentences : List String) (s : String) : Nat :=
  ((tokenize s).map (wordCount sentences)).sum

/-- Executable companion of `sentence_scores` carrying score numerators. -/
def sentence_scores_num (sentences : List String) : List (Nat × String) :=
  (sentences.filter (fun s => !(tokenize s).isEmpty)).map
    (fun s => (scoreNum sentences s, s))

/-- Descending comparison on score numerators (equivalent to
`scoreDescR` whenever `maxFreq` is positive). -/
def scoreDescNumR (x y : Nat × String) : Bool :=
  decide (y.1 ≤ x.1)

/-- Executable companion of `summaryList`. -/
def summaryListNum (text : String) (max_sentences : Nat) : List String :=
  let sentences := split_into_sentences text
  if sentences.length ≤ max_sentences then sentences
  else if (nonStopTokens sentences).isEmpty then sentences.take max_sentences
  else
    let top := ((sortByR scoreDescNumR (sentence_scores_num sentences)).take
      max_sentences).map Prod.snd
    sortByR (idxAscR sentences) top

/-! Generic facts about the stable insertion sort. -/

theorem insertByR_perm (r : α → α → Bool) (a : α) (l : List α) :
    List.Perm (insertByR r a l) (a :: l) := by
  induction l with
  | nil => exact List.Perm.refl _
  | cons b l ih =>
    cases hr : r a b
    · simp only [insertByR, hr]
      exact (ih.cons b).trans (List.Perm.swap a b l)
    · simp only [insertByR, hr]
      exact List.Perm.refl _

theorem sortByR_perm (r : α → α → Bool) (l : List α) :
    List.Perm (sortByR r l) l := by
  induction l with
  | nil => exact List.Perm.refl _
  | cons a l ih =>
    exact ((insertByR_perm r a (sortByR r l)).trans (ih.cons a))

theorem mem_sortByR (r : α → α → Bool) (l : List α) (x : α) :
    x ∈ sortByR r l ↔ x ∈ l :=
  (sortByR_perm r l).mem_iff

theorem mem_insertByR (r : α → α → Bool) (a : α) (l : List α) (x : α) :
    x ∈ insertByR r a l ↔ x = a ∨ x ∈ l := by
  rw [(insertByR_perm r a l).mem_iff, List.mem_cons]

theorem pairwise_insertByR (r : α → α → Bool)
    (total : ∀ a b, r a b = true ∨ r b a = true)
    (htrans : ∀ a b c, r a b = true → r b c = true → r a c = true)
    (a : α) (l : List α) (h : l.Pairwise (fun x y => r x y = true)) :
    (insertByR r a l).Pairwise (fun x y => r x y = true) := by
  induction l with
  | nil => simp [insertByR]
  | cons b l ih =>
    rcases List.pairwise_cons.mp h with ⟨hb, hl⟩
    cases hr : r a b
    · simp only [insertByR, hr]
      refine List.pairwise_cons.mpr ⟨?_, ih hl⟩
      intro y hy
      rcases (mem_insertByR r a l y).mp hy with hya | hyl
      · rcases total a b with h1 | h1
        · rw [h1] at hr; cases hr
        · rw [hya]; exact h1
      · exact hb y hyl
    · simp only [insertByR, hr]
      refine List.pairwise_cons.mpr ⟨?_, h⟩
      intro y hy
      rcases List.mem_cons.mp hy with hyb | hyl
      · subst hyb; exact hr
      · exact htrans a b y hr (hb y hyl)

theorem pairwise_sortByR (r : α → α → Bool)
    (total : ∀ a b, r a b = true ∨ r b a = true)
    (htrans : ∀ a b c, r a b = true → r b c = true → r a c = true)
    (l : List α) : (sortByR r l).Pairwise (fun x y => r x y = true) := by
  induction l with
  | nil => exact List.Pairwise.nil
  | cons a l ih => exact pairwise_insertByR r total htrans a _ ih

theorem filter_insertByR (r : α → α → Bool) (p : α → Bool) (a : α)
    (hp : p a = true → ∀ b, r a b = false → p b = false) (l : List α) :
    (insertByR r a l).filter p =
      if p a then a :: l.filter p else l.filter p := by
  induction l with
  | nil =>
    cases hpa : p a <;> simp [insertByR, List.filter_cons, hpa]
  | cons b l ih =>
    cases hr : r a b
    · simp only [insertByR, hr]
      cases hpa : p a
      · simp [List.filter_cons, ih, hpa]
      · have hpb : p b = false := hp hpa b hr
        simp [List.filter_cons, ih, hpa, hpb]
    · simp only [insertByR, hr]
      cases hpa : p a <;> simp [List.filter_cons, hpa]

theorem filter_sortByR (r : α → α → Bool) (p : α → Bool)
    (hp : ∀ a b, p a = true → r a b = false → p b = false) (l : List α) :
    (sortByR r l).filter p = l.filter p := by
  induction l with
  | nil => rfl
  | cons a l ih =>
    simp only [sortByR]
    rw [filter_insertByR r p a (fun hpa b hb => hp a b hpa hb) (sortByR r l),
      ih, List.filter_cons]

theorem insertByR_map (f : α → β) (r : α → α → Bool) (r2 : β → β → Bool)
    (h : ∀ a b, r2 (f a) (f b) = r a b) (a : α) (l : List α) :
    insertByR r2 (f a) (l.map f) = (insertByR r a l).map f := by
  induction l with
  | nil => rfl
  | cons b l ih =>
    simp only [List.map, insertByR, h a b]
    cases hr : r a b <;> simp only [hr] <;> simp [ih]

theorem sortByR_map (f : α → β) (r : α → α → Bool) (r2 : β → β → Bool)
    (h : ∀ a b, r2 (f a) (f b) = r a b) (l : List α) :
    sortByR r2 (l.map f) = (sortByR r l).map f := by
  induction l with
  | nil => rfl
  | cons a l ih =>
    simp only [List.map, sortByR, ih]
    exact insertByR_map f r r2 h a (sortByR r l)

/-! Bridge between the rational scores of the source and the executable
numerator form: every weight has denominator `maxFreq`. -/

theorem le_foldr_max (x : Nat) (l : List Nat) (h : x ∈ l) :
    x ≤ l.foldr max 0 := by
  induction l with
  | nil => cases h
  | cons a l ih =>
    rcases List.mem_cons.mp h with h1 | h1
    · subst h1; exact le_max_left _ _
    · exact le_trans (ih h1) (le_max_right _ _)

theorem maxFreq_pos (sentences : List String)
    (h : nonStopTokens sentences ≠ []) : 1 ≤ maxFreq sentences := by
  rcases List.exists_mem_of_ne_nil _ h with ⟨w, hw⟩
  have hcount : 1 ≤ wordCount sentences w := by
    have h2 : 0 < (nonStopTokens sentences).count w := List.count_pos_iff.mpr hw
    exact h2
  have hmem : wordCount sentences w ∈
      ((nonStopTokens sentences).dedup).map (wordCount sentences) :=
    List.mem_map_of_mem _ (List.mem_dedup.mpr hw)
  exact le_trans hcount (le_foldr_max _ _ hmem)

theorem sum_div_nat (l : List Nat) (D : ℚ) :
    (l.map (fun n : Nat => (n : ℚ) / D)).sum = ((l.sum : ℚ)) / D := by
  induction l with
  | nil => simp
  | cons a l ih =>
    simp only [List.map, List.sum_cons, ih]
    push_cast
    rw [add_div]

theorem sentence_score_eq (sentences : List String) (s : String) :
    sentence_score sentences s =
      (scoreNum sentences s : ℚ) / (maxFreq sentences : ℚ) := by
  unfold sentence_score scoreNum weight
  rw [← sum_div_nat, List.map_map]
  rfl

theorem sentence_scores_eq (sentences : List String) :
    sentence_scores sentences = (sentence_scores_num sentences).map
      (fun x => ((x.1 : ℚ) / (maxFreq sentences : ℚ), x.2)) := by
  unfold sentence_scores sentence_scores_num
  rw [List.map_map]
  exact List.map_congr_left (fun s _ => by simp [sentence_score_eq])

theorem scoreDesc_compat (sentences : List String)
    (hD : 1 ≤ maxFreq sentences) (x y : Nat × String) :
    scoreDescR ((x.1 : ℚ) / (maxFreq sentences : ℚ), x.2)
      ((y.1 : ℚ) / (maxFreq sentences : ℚ), y.2) = scoreDescNumR x y := by
  have hD2 : (0 : ℚ) < (maxFreq sentences : ℚ) := by
    exact_mod_cast Nat.lt_of_lt_of_le Nat.zero_lt_one hD
  simp only [scoreDescR, scoreDescNumR]
  rw [decide_eq_decide, div_le_div_iff_of_pos_right hD2]
  exact Nat.cast_le

theorem summaryList_eq_num (text : String) (N : Nat) :
    summaryList text N = summaryListNum text N := by
  unfold summaryList summaryListNum
  by_cases h1 : (split_into_sentences text).length ≤ N
  · simp [h1]
  · by_cases h2 : (nonStopTokens (split_into_sentences text)).isEmpty
    · simp [h1, h2]
    · have hD : 1 ≤ maxFreq (split_into_sentences text) :=
        maxFreq_pos _ (by simpa using h2)
      simp only [h1, h2, if_false, Bool.false_eq_true, if_neg]
      congr 1
      rw [sentence_scores_eq,
        sortByR_map _ scoreDescNumR scoreDescR
          (fun a b => scoreDesc_compat _ hD a b),
        ← List.map_take, List.map_map]
      rfl

/-! Data model of the collector: feed entries and articles.  Timestamps
(timezone-aware `datetime` values) are modelled by the instants they
denote, as seconds relative to the Unix epoch (`Option Int`, `none` for
an absent timestamp); comparison of aware datetimes is comparison of
instants.  The uninterpreted `raw` record is modelled as an association list. -/

structure FeedEntry where
  title : String
  link : String
  summary : String
  published : Option Int
  tags : List String
  source : String
  raw : List (String × String)
deriving DecidableEq

structure Article where
  title : String
  link : String
  published_at : Option Int
  source : String
  tags : List String
  summary : String
  full_text : String
  raw : List (String × String)
deriving DecidableEq

/-- Python `str.strip()` on a string. -/
def pyStripStr (s : String) : String :=
  String.mk (pyStrip s.data)

/-- Whitespace-separated words of a string. -/
def pyWords (s : String) : List String :=
  (s.split (fun c => isPySpace c)).filter (fun w => w ≠ "")

/-- Greedy prefix of the word list whose single-space join plus the
placeholder still fits the width (`curLen` is the length joined so far). -/
def shortenCore (width phLen : Nat) : Nat → List String → List String
  | _, [] => []
  | curLen, w :: ws =>
    let newLen := if curLen = 0 then w.length else curLen + 1 + w.length
    if newLen + phLen ≤ width then w :: shortenCore width phLen newLen ws
    else []

/-- Model of `textwrap.shorten(s, width, placeholder)`: collapse
whitespace; if the collapsed text fits the width return it, otherwise
keep a greedy prefix of whole words and append the placeholder.  This is
a faithful approximation of the stdlib helper; no claim depends on the
summary fallback's exact text. -/
def shorten (s : String) (width : Nat) (ph : String) : String :=
  let ws := pyWords s
  let norm := String.intercalate " " ws
  if norm.length ≤ width then norm
  else
    let kept := shortenCore width ph.length 0 ws
    if kept.isEmpty then pyStripStr ph
    else String.intercalate " " kept ++ ph

/-- The worker `_build_article`.  `fetched = none` models a failed HTTP
request (`requests.RequestException`); `fetched = some extracted` models
a successful fetch whose response body the HTML extractor `_extract_text`
(uninterpreted here: BeautifulSoup parsing is outside the embedding) reduced to
`extracted`.  Python truthiness of a string is emptiness, so `if not
full_text` is `extracted = ""`.  Entries reaching the worker always carry
a `title` key (the feed reader defaults it to `""`), so the `"Untitled"`
default of the source is unreachable, and their `tags` are all strings,
so the `isinstance` filter passes every tag. -/
def build_article (entry : FeedEntry) (fetched : Option String)
    (summary_sentences : Nat) : Option Article :=
  if entry.link = "" then none
  else
    match fetched with
    | none => none
    | some extracted =>
      let full_text := if extracted = "" then entry.summary else extracted
      let summary0 := summarize_text full_text summary_sentences
      let summary := if summary0 = "" then shorten full_text 280 "…" else summary0
      some
        { title := entry.title
          link := entry.link
          published_at := entry.published
          source := entry.source
          tags := entry.tags
          summary := summary
          full_text := pyStripStr full_text
          raw := entry.raw }

/-- Sort key of the final sort: `a.published_at or
datetime.fromtimestamp(0, tz=timezone.utc)` — an absent timestamp acts
as the epoch instant `0`. -/
def pubKey (a : Article) : Int :=
  a.published_at.getD 0

/-- Descending-by-timestamp comparison of the final stable sort
(`articles.sort(key=..., reverse=True)`). -/
def pubDescR (a b : Article) : Bool :=
  decide (pubKey b ≤ pubKey a)

/-- The result-accumulation loop of `collect_articles` over worker
results in completion order: skip `None` results, skip articles whose
body is shorter than `min_length`, append the rest, and break as soon as
the accumulated count reaches `limit`. -/
def collectLoop (limit min_length : Nat) :
    List (Option Article) → List Article → List Article
  | [], acc => acc
  | r :: rest, acc =>
    match r with
    | none => collectLoop limit min_length rest acc
    | some article =>
      if article.full_text.length < min_length then
        collectLoop limit min_length rest acc
      else
        let acc2 := acc ++ [article]
        if limit ≤ acc2.length then acc2
        else collectLoop limit min_length rest acc2

/-- The collector `collect_articles` after the worker phase: accumulate accepted
results, sort by published timestamp descending (stable), truncate to
the limit.  `results` is the list of `_build_article` outcomes in
completion order. -/
def collect_articles (limit min_length : Nat)
    (results : List (Option Article)) : List Article :=
  (sortByR pubDescR (collectLoop limit min_length results [])).take limit

/-! Structured serialization (`Article.to_dict` / `AINewsAgent.to_json`).
The JSON text layer of `json.dumps` is stdlib and faithful to this AST;
an ISO-8601 rendering of an aware timestamp is an injective encoding of
its instant, so the rendered string is modelled by the instant. -/

inductive JValue where
  | jnull : JValue
  | jstr : String → JValue
  | jtime : Int → JValue
  | jarr : List JValue → JValue

/-- Serialization `Article.to_dict`: the fixed field order and naming of the source. -/
def Article.to_dict (a : Article) : List (String × JValue) :=
  [("title", JValue.jstr a.title),
   ("link", JValue.jstr a.link),
   ("published_at",
     match a.published_at with
     | some t => JValue.jtime t
     | none => JValue.jnull),
   ("source", JValue.jstr a.source),
   ("tags", JValue.jarr (a.tags.map JValue.jstr)),
   ("summary", JValue.jstr a.summary),
   ("full_text", JValue.jstr a.full_text)]

/-- Serialization `AINewsAgent.to_json`: one record per article, in order. -/
def to_json (articles : List Article) : List (List (String × JValue)) :=
  articles.map Article.to_dict

/-- The data of an `Article` excluding the uninterpreted raw record — what the
structured output is supposed to reconstruct. -/
structure ArticleFields where
  title : String
  link : String
  published_at : Option Int
  source : String
  tags : List String
  summary : String
  full_text : String
deriving DecidableEq

/-- Projection of an `Article` to its serializable fields. -/
def Article.fields (a : Article) : ArticleFields :=
  ⟨a.title, a.link, a.published_at, a.source, a.tags, a.summary, a.full_text⟩

/-- Lookup of a field by name in a decoded record. -/
def getField (d : List (String × JValue)) (k : String) : Option JValue :=
  (d.find? (fun p => p.1 == k)).map Prod.snd

def asStr : JValue → Option String
  | JValue.jstr s => some s
  | _ => none

def asTime : JValue → Option (Option Int)
  | JValue.jnull => some none
  | JValue.jtime t => some (some t)
  | _ => none

/-- Decode a JSON array of strings. -/
def decodeStrList : List JValue → Option (List String)
  | [] => some []
  | v :: vs =>
    match asStr v, decodeStrList vs with
    | some s, some ss => some (s :: ss)
    | _, _ => none

def asTags : JValue → Option (List String)
  | JValue.jarr xs => decodeStrList xs
  | _ => none

/-- Decoder of one structured record back into article data. -/
def decode_article (d : List (String × JValue)) : Option ArticleFields := do
  let title ← (getField d "title").bind asStr
  let link ← (getField d "link").bind asStr
  let pub ← (getField d "published_at").bind asTime
  let source ← (getField d "source").bind asStr
  let tags ← (getField d "tags").bind asTags
  let summary ← (getField d "summary").bind asStr
  let full_text ← (getField d "full_text").bind asStr
  pure ⟨title, link, pub, source, tags, summary, full_text⟩

/-- Decoder of the whole structured output. -/
def decode_articles : List (List (String × JValue)) → Option (List ArticleFields)
  | [] => some []
  | d :: ds =>
    match decode_article d, decode_articles ds with
    | some a, some rest => some (a :: rest)
    | _, _ => none

/-! Command-line parsing (`parse_cli_args`) and the worker-count clamp of
the agent constructor. -/

/-- Accumulating decimal digit parser: `none` on the first non-digit. -/
def digitsValAux : Nat → List Char → Option Nat
  | acc, [] => some acc
  | acc, c :: cs =>
    if decide ('0' ≤ c ∧ c ≤ '9') then
      digitsValAux (10 * acc + (c.toNat - 48)) cs
    else none

/-- Python `int(str)` on a decimal literal with optional sign (the
whitespace and underscore tolerance of CPython's parser plays no part in
the claims and is not modelled). -/
def pyIntOfString (s : String) : Option Int :=
  match s.data with
  | [] => none
  | '-' :: rest =>
    if rest.isEmpty then none
    else (digitsValAux 0 rest).map (fun n => -(n : Int))
  | '+' :: rest =>
    if rest.isEmpty then none
    else (digitsValAux 0 rest).map (fun n => (n : Int))
  | rest => (digitsValAux 0 rest).map (fun n => (n : Int))

/-- The conversion `argparse` applies to a flag declared `type=int`:
Python `int(value)`; a value that does not parse as an integer aborts
startup with a usage error.  No range check is attached to any flag. -/
def argparseInt (s : String) : Except String Int :=
  match pyIntOfString s with
  | some n => Except.ok n
  | none => Except.error ("invalid int value: " ++ s)

/-- The parsed namespace restricted to the four integer flags; the
remaining flags (choices, floats, strings) play no part in the claims. -/
structure CliArgs where
  limit : Int
  min_length : Int
  summary_sentences : Int
  max_workers : Int
deriving DecidableEq

/-- Model of `parse_cli_args` over the values supplied for the four integer
flags: each is converted by `argparseInt`; nothing else is validated. -/
def parse_cli_args (limit min_length summary_sentences max_workers : String) :
    Except String CliArgs := do
  let l ← argparseInt limit
  let m ← argparseInt min_length
  let s ← argparseInt summary_sentences
  let w ← argparseInt max_workers
  pure ⟨l, m, s, w⟩

/-- The constructor clamp `self.max_workers = max(1, max_workers)`. -/
def agentMaxWorkers (w : Int) : Int :=
  max 1 w

/-! Facts about the collector loop. -/

theorem collectLoop_mem (limit min_length : Nat) :
    ∀ (results : List (Option Article)) (acc : List Article) (a : Article),
      a ∈ collectLoop limit min_length results acc →
      a ∈ acc ∨ min_length ≤ a.full_text.length := by
  intro results
  induction results with
  | nil =>
    intro acc a ha
    exact Or.inl ha
  | cons r rest ih =>
    intro acc a ha
    cases r with
    | none => exact ih acc a ha
    | some article =>
      simp only [collectLoop] at ha
      by_cases hlen : article.full_text.length < min_length
      · rw [if_pos hlen] at ha
        exact ih acc a ha
      · rw [if_neg hlen] at ha
        by_cases hlim : limit ≤ (acc ++ [article]).length
        · rw [if_pos hlim] at ha
          rcases List.mem_append.mp ha with h1 | h1
          · exact Or.inl h1
          · right
            rcases List.mem_singleton.mp h1 with rfl
            omega
        · rw [if_neg hlim] at ha
          rcases ih (acc ++ [article]) a ha with h1 | h1
          · rcases List.mem_append.mp h1 with h2 | h2
            · exact Or.inl h2
            · right
              rcases List.mem_singleton.mp h2 with rfl
              omega
          · exact Or.inr h1

theorem collectLoop_length_le (limit min_length : Nat) :
    ∀ (results : List (Option Article)) (acc : List Article),
      acc.length < limit →
      (collectLoop limit min_length results acc).length ≤ limit := by
  intro results
  induction results with
  | nil =>
    intro acc hacc
    exact Nat.le_of_lt hacc
  | cons r rest ih =>
    intro acc hacc
    cases r with
    | none => exact ih acc hacc
    | some article =>
      simp only [collectLoop]
      by_cases hlen : article.full_text.length < min_length
      · rw [if_pos hlen]
        exact ih acc hacc
      · rw [if_neg hlen]
        by_cases hlim : limit ≤ (acc ++ [article]).length
        · rw [if_pos hlim]
          simp only [List.length_append, List.length_singleton]
          omega
        · rw [if_neg hlim]
          exact ih (acc ++ [article]) (by simp at hlim ⊢; omega)

theorem collectLoop_acc_mono (limit min_length : Nat) :
    ∀ (results : List (Option Article)) (acc : List Article) (a : Article),
      a ∈ acc → a ∈ collectLoop limit min_length results acc := by
  intro results
  induction results with
  | nil =>
    intro acc a ha
    exact ha
  | cons r rest ih =>
    intro acc a ha
    cases r with
    | none => exact ih acc a ha
    | some article =>
      simp only [collectLoop]
      by_cases hlen : article.full_text.length < min_length
      · rw [if_pos hlen]
        exact ih acc a ha
      · rw [if_neg hlen]
        by_cases hlim : limit ≤ (acc ++ [article]).length
        · rw [if_pos hlim]
          exact List.mem_append_left _ ha
        · rw [if_neg hlim]
          exact ih (acc ++ [article]) a (List.mem_append_left _ ha)

theorem pubDescR_total (a b : Article) :
    pubDescR a b = true ∨ pubDescR b a = true := by
  unfold pubDescR
  rcases Int.le_total (pubKey b) (pubKey a) with h | h
  · exact Or.inl (decide_eq_true h)
  · exact Or.inr (decide_eq_true h)

theorem pubDescR_trans (a b c : Article) (hab : pubDescR a b = true)
    (hbc : pubDescR b c = true) : pubDescR a c = true := by
  unfold pubDescR at *
  exact decide_eq_true (le_trans (of_decide_eq_true hbc) (of_decide_eq_true hab))

/-! Further helpers for the summarizer claims. -/

theorem weight_stop_zero (sentences : List String) (w : String)
    (hw : isStopWord w = true) : weight sentences w = 0 := by
  unfold weight wordCount
  have h1 : w ∉ nonStopTokens sentences := by
    intro hmem
    have h2 := List.of_mem_filter hmem
    rw [hw] at h2
    cases h2
  rw [List.count_eq_zero.mpr h1]
  simp

theorem sum_map_filter_zero (w : String → ℚ) (p : String → Bool)
    (h : ∀ x, p x = false → w x = 0) (l : List String) :
    (l.map w).sum = ((l.filter p).map w).sum := by
  induction l with
  | nil => rfl
  | cons a l ih =>
    cases hpa : p a
    · simp only [List.map, List.sum_cons, List.filter_cons, hpa, h a hpa, ih]
      simp
    · simp only [List.map, List.sum_cons, List.filter_cons, hpa, ih]

theorem decodeStrList_map (l : List String) :
    decodeStrList (l.map JValue.jstr) = some l := by
  induction l with
  | nil => rfl
  | cons a l ih => simp [decodeStrList, asStr, ih]

theorem decode_to_dict (a : Article) :
    decode_article (Article.to_dict a) = some (Article.fields a) := by
  cases h : a.published_at <;>
    simp [decode_article, Article.to_dict, getField, asStr, asTime, asTags, h,
      decodeStrList_map, Article.fields, List.find?]

/-! Claim theorems. -/

/-- C1: for every text whose heuristic sentence split yields at most `N`
sentences, `summarize_text` returns all those sentences, in their
original order, content unchanged, joined by single spaces — the
identity/short-circuit case, without scoring. -/
theorem c1_short_circuit (text : String) (N : Nat)
    (h : (split_into_sentences text).length ≤ N) :
    summarize_text text N =
      String.intercalate " " (split_into_sentences text) := by
  unfold summarize_text summaryList
  simp [h]

/-- C1 witness: a two-sentence text with `N = 3`. -/
theorem c1_short_circuit_witness :
    (split_into_sentences "Hello there. Bye now.").length ≤ 3 ∧
      summarize_text "Hello there. Bye now." 3 =
        String.intercalate " " (split_into_sentences "Hello there. Bye now.") :=
  ⟨by decide, c1_short_circuit "Hello there. Bye now." 3 (by decide)⟩

/-- C2 counterexample: the text has exactly one distinct non-stop word
(so fewer than 2), more sentences than `N = 1`, yet `summarize_text`
does not return the first sentence: with one distinct non-stop word the
frequency table is non-empty and scoring selects the highest-scoring
sentence instead of the first one. -/
theorem c2_counterexample :
    ((nonStopTokens (split_into_sentences "He is here. Cat.")).dedup).length < 2 ∧
    1 < (split_into_sentences "He is here. Cat.").length ∧
    summarize_text "He is here. Cat." 1 ≠
      String.intercalate " " ((split_into_sentences "He is here. Cat.").take 1) := by
  refine ⟨by decide, by decide, ?_⟩
  unfold summarize_text
  rw [summaryList_eq_num]
  decide

/-- C2 (amended): the verbatim first-`N` fallback happens exactly when
no non-stop word occurs at all (the frequency table is empty); with the
sentence count above `N` the first `N` sentences are returned joined by
single spaces. -/
theorem c2_empty_freq_fallback (text : String) (N : Nat)
    (h2 : nonStopTokens (split_into_sentences text) = [])
    (h1 : N < (split_into_sentences text).length) :
    summarize_text text N =
      String.intercalate " " ((split_into_sentences text).take N) := by
  have h1b : ¬ (split_into_sentences text).length ≤ N := by omega
  unfold summarize_text summaryList
  simp [h1b, h2]

/-- C2 witness: an all-stop-word three-sentence text with `N = 1`. -/
theorem c2_empty_freq_fallback_witness :
    nonStopTokens (split_into_sentences "He is. We do. So so.") = [] ∧
    1 < (split_into_sentences "He is. We do. So so.").length ∧
    summarize_text "He is. We do. So so." 1 =
      String.intercalate " " ((split_into_sentences "He is. We do. So so.").take 1) :=
  ⟨by decide, by decide,
    c2_empty_freq_fallback "He is. We do. So so." 1 (by decide) (by decide)⟩

/-- C9 counterexample: `parse_cli_args` accepts a limit of `-5`, which is
below the declared domain (integer ≥ 0), and returns it unchanged in the
parsed namespace instead of failing hard at startup — no range
validation exists. -/
theorem c9_counterexample :
    parse_cli_args "-5" "600" "3" "6" =
      Except.ok ⟨-5, 600, 3, 6⟩ ∧ (-5 : Int) < 0 :=
  ⟨rfl, by decide⟩

/-- C9 (amended): `parse_cli_args` performs no range validation: any
values that convert as integers — in or out of the declared flag domains
— are accepted verbatim and the program proceeds; only a value that
fails integer conversion aborts startup with a descriptive error, and a
`max-workers` below 1 is later silently clamped to 1 by the agent
constructor rather than rejected. -/
theorem c9_no_range_validation (ls ms ss ws : String) (l m s w : Int)
    (h1 : pyIntOfString ls = some l) (h2 : pyIntOfString ms = some m)
    (h3 : pyIntOfString ss = some s) (h4 : pyIntOfString ws = some w) :
    parse_cli_args ls ms ss ws = Except.ok ⟨l, m, s, w⟩ ∧
    argparseInt "abc" = Except.error "invalid int value: abc" ∧
    agentMaxWorkers (-3) = 1 := by
  refine ⟨?_, rfl, by unfold agentMaxWorkers; omega⟩
  unfold parse_cli_args argparseInt
  rw [h1, h2, h3, h4]
  rfl

/-- C9 witness: every one of the four integer flags is given an
out-of-domain value (limit `-5`, min-length `-1`, summary-sentences `0`,
max-workers `0`) and parsing succeeds with exactly those values. -/
theorem c9_no_range_validation_witness :
    parse_cli_args "-5" "-1" "0" "0" = Except.ok ⟨-5, -1, 0, 0⟩ ∧
    argparseInt "abc" = Except.error "invalid int value: abc" ∧
    agentMaxWorkers (-3) = 1 :=
  c9_no_range_validation "-5" "-1" "0" "0" (-5) (-1) 0 0 rfl rfl rfl rfl

/-- C7: decoding the structured output of `to_json` reconstructs every
article's data field-for-field (excluding the uninterpreted raw record), and
the field order and naming of each record are fixed. -/
theorem c7_round_trip (articles : List Article) :
    decode_articles (to_json articles) = some (articles.map Article.fields) ∧
    (∀ a : Article, (Article.to_dict a).map Prod.fst =
      ["title", "link", "published_at", "source", "tags", "summary",
        "full_text"]) := by
  constructor
  · induction articles with
    | nil => rfl
    | cons a rest ih =>
      simp only [to_json, List.map] at ih ⊢
      simp [decode_articles, decode_to_dict, ih]
  · intro a
    rfl

/-- Concrete feed entry whose extraction and snippet are both empty,
used by the C8 counterexample. -/
def entryNoBody : FeedEntry :=
  ⟨"T", "http://x", "", none, [], "Src", []⟩

/-- C8 counterexample: with minimum length 0, an entry whose extraction
is empty and whose feed snippet is also empty is *not* dropped — it is
published with an empty body, because the worker has no emptiness check
beyond the snippet fallback and the collector's only gate is the
minimum-length test. -/
theorem c8_counterexample :
    (collect_articles 10 0 [build_article entryNoBody (some "") 3]).map
      Article.full_text = [""] := by
  decide

/-- Concrete accepted article, used by the C8 witness. -/
def articleBodyXYZ : Article :=
  ⟨"W", "http://w", none, "src", [], "sum", "xyz", []⟩

/-- Concrete entry with a non-empty link and a whitespace-padded
snippet, used by the C8 witness. -/
def entryFallback : FeedEntry :=
  ⟨"T2", "http://y", " snippet ", none, [], "Src", []⟩

/-- C8 (amended): whenever the configured minimum body length is at
least 1, every article returned by `collect_articles` has a non-empty
body (the minimum-length gate enforces it); and when extraction yields
an empty body the worker falls back to the feed-supplied snippet as the
body (stored stripped).  With minimum length 0 the guarantee fails (see
the counterexample): an entry whose snippet is also empty is published
with an empty body rather than dropped. -/
theorem c8_min_length_gate (limit min_length : Nat)
    (results : List (Option Article)) (e : FeedEntry) (n : Nat)
    (hm : 1 ≤ min_length) (he : e.link ≠ "") :
    (∀ a ∈ collect_articles limit min_length results, a.full_text ≠ "") ∧
    Option.map Article.full_text (build_article e (some "") n) =
      some (pyStripStr e.summary) := by
  constructor
  · intro a ha hempty
    have h1 : a ∈ sortByR pubDescR (collectLoop limit min_length results []) :=
      List.mem_of_mem_take ha
    have h2 : a ∈ collectLoop limit min_length results [] :=
      (mem_sortByR _ _ _).mp h1
    rcases collectLoop_mem limit min_length results [] a h2 with h3 | h3
    · cases h3
    · rw [hempty] at h3
      simp at h3
      omega
  · simp [build_article, he]

/-- C8 witness: with minimum length 1, a concrete run returns only
non-empty bodies, and a concrete empty-extraction entry resolves its
body to the stripped feed snippet. -/
theorem c8_min_length_gate_witness :
    (∀ a ∈ collect_articles 5 1 [some articleBodyXYZ], a.full_text ≠ "") ∧
    Option.map Article.full_text (build_article entryFallback (some "") 2) =
      some (pyStripStr entryFallback.summary) :=
  c8_min_length_gate 5 1 [some articleBodyXYZ] entryFallback 2
    (by decide) (by decide)

/-- C10: a feed entry whose link is missing or empty is skipped by the
worker before any network activity — `build_article` returns no article
whatever the fetch would have produced (the result does not depend on
`fetched`), and the collector loop simply steps over a `none` result, so
the run continues. -/
theorem c10_empty_link (e : FeedEntry) (fetched : Option String) (n : Nat)
    (h : e.link = "") :
    build_article e fetched n = none ∧
    (∀ limit min_length rest acc,
      collectLoop limit min_length (none :: rest) acc =
        collectLoop limit min_length rest acc) := by
  refine ⟨?_, fun limit min_length rest acc => rfl⟩
  simp [build_article, h]

/-- Concrete article without a published timestamp, used by the C5
counterexample. -/
def articleNoDate : Article :=
  ⟨"A", "http://a", none, "src", [], "sum", "body", []⟩

/-- Concrete article published one second before the epoch
(1969-12-31T23:59:59Z), used by the C5 counterexample. -/
def articlePreEpoch : Article :=
  ⟨"B", "http://b", some (-1), "src", [], "sum", "body", []⟩

/-- C3 counterexample: with a repeated high-scoring sentence, the scoring
branch places both copies of the repeated sentence at its first
occurrence's position (Python's `sentences.index` returns the first
index), so the output sentence sequence is not a subsequence of the
split — occurrence-level source order is not preserved. -/
theorem c3_counterexample :
    summaryList "Dog dog dog. Dog cat. Dog dog dog. Bird bee moo." 3 =
      ["Dog dog dog.", "Dog dog dog.", "Dog cat."] ∧
    split_into_sentences "Dog dog dog. Dog cat. Dog dog dog. Bird bee moo." =
      ["Dog dog dog.", "Dog cat.", "Dog dog dog.", "Bird bee moo."] ∧
    ¬ (summaryList "Dog dog dog. Dog cat. Dog dog dog. Bird bee moo." 3).Sublist
        (split_into_sentences "Dog dog dog. Dog cat. Dog dog dog. Bird bee moo.") := by
  refine ⟨?_, by decide, ?_⟩
  · rw [summaryList_eq_num]
    decide
  · rw [summaryList_eq_num]
    decide

/-- C3 (amended): the output is the space-join of a sentence list that
preserves source order up to first occurrence: in the short-circuit
branches it is literally the split (or its first-`N` prefix), hence a
subsequence of the split; in the scoring branch the selected sentences
are listed with non-decreasing first index in the split and all come
from the split.  When the selection repeats a duplicated sentence text,
a copy can precede an intervening selected sentence (see the
counterexample), which is the only deviation from occurrence-level
source order. -/
theorem c3_output_order (text : String) (N : Nat) :
    summarize_text text N = String.intercalate " " (summaryList text N) ∧
    ((summaryList text N).Sublist (split_into_sentences text) ∨
      ((((summaryList text N).map
          (sentIndex (split_into_sentences text))).Pairwise (· ≤ ·)) ∧
        ∀ s ∈ summaryList text N, s ∈ split_into_sentences text)) := by
  refine ⟨rfl, ?_⟩
  unfold summaryList
  by_cases h1 : (split_into_sentences text).length ≤ N
  · rw [if_pos h1]
    exact Or.inl (List.Sublist.refl _)
  · rw [if_neg h1]
    by_cases h2 : (nonStopTokens (split_into_sentences text)).isEmpty
    · rw [if_pos h2]
      exact Or.inl (List.take_sublist _ _)
    · rw [if_neg h2]
      right
      constructor
      · refine (List.pairwise_map).mpr ?_
        refine (pairwise_sortByR (idxAscR (split_into_sentences text))
          ?_ ?_ _).imp ?_
        · intro a b
          unfold idxAscR
          rcases Nat.le_total (sentIndex (split_into_sentences text) a)
            (sentIndex (split_into_sentences text) b) with h | h
          · exact Or.inl (decide_eq_true h)
          · exact Or.inr (decide_eq_true h)
        · intro a b c hab hbc
          unfold idxAscR at *
          exact decide_eq_true
            (le_trans (of_decide_eq_true hab) (of_decide_eq_true hbc))
        · intro a b h
          exact of_decide_eq_true h
      · intro s hs
        have h3 : s ∈ ((sortByR scoreDescR
            (sentence_scores (split_into_sentences text))).take N).map
              Prod.snd :=
          (mem_sortByR _ _ _).mp hs
        rcases List.mem_map.mp h3 with ⟨p, hp, rfl⟩
        have h4 : p ∈ sortByR scoreDescR
            (sentence_scores (split_into_sentences text)) :=
          List.mem_of_mem_take hp
        have h5 : p ∈ sentence_scores (split_into_sentences text) :=
          (mem_sortByR _ _ _).mp h4
        unfold sentence_scores at h5
        rcases List.mem_map.mp h5 with ⟨s0, hs0, rfl⟩
        exact List.mem_of_mem_filter hs0

/-- C4 counterexample: the token-free first sentence `"!!!"` of the split
is excluded from `sentence_scores` by `if not tokens: continue`, even
though the scoring branch runs (more sentences than `N = 3` and a
non-empty frequency table) — contradicting the claim that no sentence is
excluded from candidacy. -/
theorem c4_counterexample :
    "!!!" ∈ split_into_sentences "!!! He is. She was. Dog dog dog." ∧
    3 < (split_into_sentences "!!! He is. She was. Dog dog dog.").length ∧
    nonStopTokens (split_into_sentences "!!! He is. She was. Dog dog dog.") ≠ [] ∧
    "!!!" ∉ (sentence_scores
      (split_into_sentences "!!! He is. She was. Dog dog dog.")).map Prod.snd := by
  refine ⟨by decide, by decide, by decide, ?_⟩
  rw [sentence_scores_eq, List.map_map]
  decide

/-- C4 (amended): every sentence of the split with at least one token is
scored and eligible, the score being the sum of its non-stop tokens'
normalized weights (stop-word tokens contribute weight zero); a sentence
whose tokens are all stop words is still scored with score 0 and stays
eligible; but a sentence with no tokens at all is excluded from
candidacy. -/
theorem c4_sentence_scoring (text : String) :
    (∀ s ∈ split_into_sentences text, tokenize s ≠ [] →
      (sentence_score (split_into_sentences text) s, s) ∈
        sentence_scores (split_into_sentences text)) ∧
    (∀ s : String, sentence_score (split_into_sentences text) s =
      (((tokenize s).filter (fun t => !isStopWord t)).map
        (weight (split_into_sentences text))).sum) ∧
    (∀ s ∈ split_into_sentences text, tokenize s ≠ [] →
      (∀ t ∈ tokenize s, isStopWord t = true) →
      (0, s) ∈ sentence_scores (split_into_sentences text)) ∧
    (∀ s : String, tokenize s = [] →
      s ∉ (sentence_scores (split_into_sentences text)).map Prod.snd) := by
  have hscore : ∀ s : String, sentence_score (split_into_sentences text) s =
      (((tokenize s).filter (fun t => !isStopWord t)).map
        (weight (split_into_sentences text))).sum := by
    intro s
    unfold sentence_score
    refine sum_map_filter_zero _ _ ?_ _
    intro x hx
    refine weight_stop_zero _ _ ?_
    cases hsw : isStopWord x
    · rw [hsw] at hx
      cases hx
    · rfl
  have hmem : ∀ s ∈ split_into_sentences text, tokenize s ≠ [] →
      (sentence_score (split_into_sentences text) s, s) ∈
        sentence_scores (split_into_sentences text) := by
    intro s hs htok
    unfold sentence_scores
    refine List.mem_map.mpr ⟨s, ?_, rfl⟩
    refine List.mem_filter.mpr ⟨hs, ?_⟩
    simp [List.isEmpty_iff, htok]
  refine ⟨hmem, hscore, ?_, ?_⟩
  · intro s hs htok hall
    have hz : sentence_score (split_into_sentences text) s = 0 := by
      rw [hscore s]
      have hnil : (tokenize s).filter (fun t => !isStopWord t) = [] := by
        rw [List.filter_eq_nil_iff]
        intro t ht
        simp [hall t ht]
      rw [hnil]
      rfl
    rw [← hz]
    exact hmem s hs htok
  · intro s htok hmem2
    rcases List.mem_map.mp hmem2 with ⟨p, hp, hps⟩
    unfold sentence_scores at hp
    rcases List.mem_map.mp hp with ⟨s0, hs0, rfl⟩
    have h1 : (!(tokenize s0).isEmpty) = true := (List.mem_filter.mp hs0).2
    have h2 : s0 = s := hps
    rw [h2] at h1
    rw [htok] at h1
    cases h1

/-- C4 witness: a concrete all-stop-word sentence is scored 0 and kept,
and a concrete token-bearing sentence is a scored candidate. -/
theorem c4_sentence_scoring_witness :
    (0, "It is.") ∈ sentence_scores (split_into_sentences "It is. Go go go. No no. Yes yes.") ∧
    "---" ∉ (sentence_scores (split_into_sentences "--- It is. Go go go. No no.")).map
      Prod.snd :=
  ⟨(c4_sentence_scoring "It is. Go go go. No no. Yes yes.").2.2.1 "It is."
      (by decide) (by decide) (by decide),
   (c4_sentence_scoring "--- It is. Go go go. No no.").2.2.2 "---" (by decide)⟩

/-- C5 counterexample: an absent timestamp sorts as the epoch instant,
which is not the oldest possible value — an article published before the
epoch sorts below it, so the timestamp-absent article comes out of
`collect_articles` *before* a timestamp-present one. -/
theorem c5_counterexample :
    collect_articles 5 0 [some articlePreEpoch, some articleNoDate] =
      [articleNoDate, articlePreEpoch] ∧
    articleNoDate.published_at = none ∧
    articlePreEpoch.published_at.isSome = true := by
  decide

/-- C5 (amended): the final sort of `collect_articles` orders articles
by effective key (published timestamp, absent treated as epoch start)
descending; it is stable (articles with equal effective keys keep their
original relative order); a timestamp-absent article is followed only by
articles whose effective key is at or before the epoch — so absent
articles appear after every article with a post-epoch timestamp, but may
precede articles timestamped at or before the epoch. -/
theorem c5_sort_order (l : List Article) (k : Int)
    (limit min_length : Nat) (results : List (Option Article)) :
    (sortByR pubDescR l).Pairwise (fun a b => pubKey b ≤ pubKey a) ∧
    List.Perm (sortByR pubDescR l) l ∧
    ((sortByR pubDescR l).filter (fun a => pubKey a == k) =
      l.filter (fun a => pubKey a == k)) ∧
    ((sortByR pubDescR l).Pairwise
      (fun a b => a.published_at = none → pubKey b ≤ 0)) ∧
    ((collect_articles limit min_length results).Pairwise
      (fun a b => pubKey b ≤ pubKey a)) := by
  have hpair : ∀ l2 : List Article,
      (sortByR pubDescR l2).Pairwise (fun a b => pubKey b ≤ pubKey a) :=
    fun l2 => (pairwise_sortByR pubDescR pubDescR_total pubDescR_trans l2).imp
      (fun h => of_decide_eq_true h)
  refine ⟨hpair l, sortByR_perm pubDescR l, ?_, ?_, ?_⟩
  · apply filter_sortByR
    intro a b hpa hr
    have h1 : pubKey a = k := by simpa using hpa
    have h2 : ¬ pubKey b ≤ pubKey a := by
      intro hle
      unfold pubDescR at hr
      rw [decide_eq_true hle] at hr
      cases hr
    have h3 : pubKey b ≠ k := by omega
    simpa using h3
  · refine (hpair l).imp ?_
    intro a b hle hnone
    have ha : pubKey a = 0 := by
      unfold pubKey
      rw [hnone]
      rfl
    omega
  · exact List.Pairwise.sublist (List.take_sublist _ _) (hpair _)

/-- Concrete article whose body has exactly the minimum length 3, used
by the C6 witness. -/
def articleLen3 : Article :=
  ⟨"M", "http://m", none, "src", [], "sum", "abc", []⟩

/-- Concrete article whose body is one character short of the minimum
length 3, used by the C6 witness. -/
def articleLen2 : Article :=
  ⟨"N", "http://n", none, "src", [], "sum", "ab", []⟩

/-- C6: over any stream of worker results, `collect_articles` returns at
most `limit` articles, none with a body shorter than `min_length`; a
body of exactly the minimum length is accepted (when the limit admits
it), and a body one character shorter is always rejected. -/
theorem c6_limit_min_length (limit min_length : Nat)
    (results : List (Option Article)) :
    (collect_articles limit min_length results).length ≤ limit ∧
    (∀ a ∈ collect_articles limit min_length results,
      min_length ≤ a.full_text.length) ∧
    (∀ a : Article, a.full_text.length = min_length → 1 ≤ limit →
      a ∈ collect_articles limit min_length (some a :: results)) ∧
    (∀ a : Article, a.full_text.length + 1 = min_length →
      a ∉ collect_articles limit min_length results) := by
  have hmem : ∀ a ∈ collect_articles limit min_length results,
      min_length ≤ a.full_text.length := by
    intro a ha
    have h1 : a ∈ sortByR pubDescR (collectLoop limit min_length results []) :=
      List.mem_of_mem_take ha
    have h2 : a ∈ collectLoop limit min_length results [] :=
      (mem_sortByR _ _ _).mp h1
    rcases collectLoop_mem limit min_length results [] a h2 with h3 | h3
    · cases h3
    · exact h3
  refine ⟨List.length_take_le _ _, hmem, ?_, ?_⟩
  · intro a hlen hlim
    have hstep : a ∈ collectLoop limit min_length (some a :: results) [] := by
      simp only [collectLoop]
      rw [if_neg (by omega)]
      by_cases hlim2 : limit ≤ ([] ++ [a] : List Article).length
      · rw [if_pos hlim2]
        exact List.mem_singleton.mpr rfl
      · rw [if_neg hlim2]
        exact collectLoop_acc_mono limit min_length results ([] ++ [a]) a
          (List.mem_append_right _ (List.mem_singleton.mpr rfl))
    have hlenle :
        (collectLoop limit min_length (some a :: results) []).length ≤ limit :=
      collectLoop_length_le limit min_length (some a :: results) []
        (by simpa using hlim)
    unfold collect_articles
    rw [List.take_of_length_le
      (by rw [(sortByR_perm pubDescR _).length_eq]; exact hlenle)]
    exact (mem_sortByR _ _ _).mpr hstep
  · intro a hlen ha
    have := hmem a ha
    omega

/-- C6 witness: with limit 2 and minimum length 3, a 3-character body is
accepted and a 2-character body is rejected. -/
theorem c6_limit_min_length_witness :
    articleLen3 ∈ collect_articles 2 3 [some articleLen3] ∧
    articleLen2 ∉ collect_articles 2 3 [some articleLen2] :=
  ⟨(c6_limit_min_length 2 3 []).2.2.1 articleLen3 (by decide) (by decide),
   (c6_limit_min_length 2 3 [some articleLen2]).2.2.2 articleLen2 (by decide)⟩

/-- C10 witness: a concrete entry with an empty link and a fetch that
would have succeeded. -/
theorem c10_empty_link_witness :
    build_article ⟨"Title", "", "snippet", none, [], "Src", []⟩
      (some "body text") 3 = none ∧
    (∀ limit min_length rest acc,
      collectLoop limit min_length (none :: rest) acc =
        collectLoop limit min_length rest acc) :=
  c10_empty_link ⟨"Title", "", "snippet", none, [], "Src", []⟩
    (some "body text") 3 rfl

end ParserAgent
